import Mathlib

/-!
Shallow embedding of `examples/models/llama2/quantize.py`.

Floating-point tensors are modelled by exact rationals (`ℚ`): the claims
under study concern the algebraic structure of the quantization routines
(formulas, shape handling, error checks), not binary floating-point
rounding, so dtype casts (`float16`/`float32`) are modelled as the
identity.  `torch.round` (round half to even) is modelled exactly by
`roundTE`.  Int8 bit manipulation is modelled on `ℤ` with explicit
reduction modulo `2^8`.  Python `assert` and `raise` failures are
modelled by `Except.error`.  Tensors are modelled as (nested) lists;
2-D tensors as lists of rows.
-/

/-- Machine epsilon of 32-bit floats, `torch.finfo(torch.float32).eps` = 2⁻²³. -/
def eps32 : ℚ := 1 / 2 ^ 23

/-- `torch.clamp(x, lo, hi)` on rationals. -/
def clampQ (x lo hi : ℚ) : ℚ := max lo (min x hi)

/-- `torch.clamp` on integers. -/
def clampZ (x lo hi : ℤ) : ℤ := max lo (min x hi)

/-- `torch.round`: round to the nearest integer, ties to even. -/
def roundTE (x : ℚ) : ℤ :=
  if x - ⌊x⌋ = 1 / 2 then (if Even ⌊x⌋ then ⌊x⌋ else ⌊x⌋ + 1) else round x

/-- Two's-complement byte (8-bit pattern) of an int8 value. -/
def toByte (z : ℤ) : ℕ := (z % 256).toNat

/-- Signed int8 value represented by a byte. -/
def ofByte (n : ℕ) : ℤ := if n < 128 then (n : ℤ) else (n : ℤ) - 256

/-- Signed 4-bit value of a nibble (the value an arithmetic right shift by 4
sign-extends a high nibble to). -/
def ofNibble (n : ℕ) : ℤ := if n < 8 then (n : ℤ) else (n : ℤ) - 16

/-- `first << 4 | second` on int8 operands: torch keeps dtype `int8`, the shift
wraps modulo 2^8, and the bitwise or acts on the two's-complement bytes.
Note the source does NOT mask `second` to its low nibble. -/
def packPair (first second : ℤ) : ℤ :=
  ofByte (Nat.lor (toByte first % 16 * 16) (toByte second))

/-- `int8_data[::2] << 4 | int8_data[1::2]` over the flattened data. -/
def packPairs : List ℤ → List ℤ
  | a :: b :: rest => packPair a b :: packPairs rest
  | _ => []

/-- `pack_int4_from_int8` (quantize.py:594): asserts `shape[-1] % 2 == 0`,
flattens, and packs adjacent pairs into bytes. -/
def pack_int4_from_int8 (shape : List ℕ) (int8_data : List ℤ) :
    Except String (List ℤ) :=
  if ¬ (shape.getLastD 0 % 2 = 0) then .error "assert shape[-1] % 2 == 0"
  else .ok (packPairs int8_data)

/-- High nibble: `int8_data >> 4` (arithmetic shift on int8), then
`.to(torch.int8)`. -/
def highNibble (p : ℤ) : ℤ := ofNibble (toByte p / 16)

/-- Low nibble: `int8_data & 0b1111` (value in `[0, 15]`), then
`.to(torch.int8)`. -/
def lowNibble (p : ℤ) : ℤ := (toByte p % 16 : ℕ)

/-- `unpack_int4_to_int8` (quantize.py:606): `stack([first, second], dim=-1)`
followed by `view(up_size(shape))` interleaves high and low nibbles. -/
def unpack_int4_to_int8 (int8_data : List ℤ) : List ℤ :=
  int8_data.flatMap (fun p => [highNibble p, lowNibble p])

/-- Minimum of a list of rationals, `torch.aminmax` style (the default value is
never used by the theorems, which restrict to non-empty rows as torch does). -/
def listMin : List ℚ → ℚ
  | [] => 0
  | h :: t => t.foldl min h

/-- Maximum of a list of rationals. -/
def listMax : List ℚ → ℚ
  | [] => 0
  | h :: t => t.foldl max h

/-- `input.abs().amax(dim=-1)` for one row.  Seeding the fold with 0 agrees
with torch's `amax` on every non-empty row because all values are `≥ 0`. -/
def listAmaxAbs (l : List ℚ) : ℚ := l.foldl (fun a x => max a |x|) 0

/-- One row of `choose_qparams_per_token_asymmetric` (quantize.py:204-243):
`qmin, qmax = -128, 127`; `aminmax` over the last dimension; scale
`(max_val_pos - min_val_neg) / (qmax - qmin)` clamped below by float32 eps;
zero point selected by the `zero_point_from_min_error + zero_point_from_max_error > 0`
comparison, clamped to `[qmin, qmax]`, then rounded. -/
def asymmRow (xs : List ℚ) : ℚ × ℚ :=
  let qmin : ℚ := -128
  let qmax : ℚ := 127
  let min_val := listMin xs
  let max_val := listMax xs
  let min_val_neg := min min_val 0
  let max_val_pos := max max_val 0
  let scale0 := (max_val_pos - min_val_neg) / (qmax - qmin)
  let scale := max scale0 eps32
  let descaled_min := min_val_neg / scale
  let descaled_max := max_val_pos / scale
  let zero_point_from_min_error := qmin + descaled_min
  let zero_point_from_max_error := qmax + descaled_max
  let zero_point :=
    if zero_point_from_min_error + zero_point_from_max_error > 0 then
      qmin - descaled_min
    else
      qmax - descaled_max
  (scale, ((roundTE (clampQ zero_point qmin qmax) : ℤ) : ℚ))

/-- `choose_qparams_per_token_asymmetric`: per-row qparams; the input's leading
dimensions are flattened into a list of rows. -/
def choose_qparams_per_token_asymmetric (input : List (List ℚ)) :
    List ℚ × List ℚ :=
  (input.map (fun r => (asymmRow r).1), input.map (fun r => (asymmRow r).2))

/-- Scale of one row as worded by the spec claim C1: `(max(max_val, 0) -
min(min_val, 0)) / (qmax - qmin)` clamped below by float32 machine epsilon. -/
def specAsymmScale (xs : List ℚ) : ℚ :=
  max ((max (listMax xs) 0 - min (listMin xs) 0) / (127 - -128)) eps32

/-- Zero point of one row as worded by the spec claim C1: if
`(qmin + min_val_neg/scale) + (qmax + max_val_pos/scale) > 0` then
`qmin - min_val_neg/scale` else `qmax - max_val_pos/scale`, clamped to
`[qmin, qmax]` and then rounded to the nearest integer. -/
def specAsymmZeroPoint (xs : List ℚ) : ℚ :=
  let scale := specAsymmScale xs
  let min_val_neg := min (listMin xs) 0
  let max_val_pos := max (listMax xs) 0
  ((roundTE (clampQ
      (if -128 + min_val_neg / scale + (127 + max_val_pos / scale) > 0 then
        -128 - min_val_neg / scale
      else
        127 - max_val_pos / scale) (-128) 127) : ℤ) : ℚ)

/-- Supported torch dtypes for this file's operations. -/
inductive DType where
  | int8 | uint8 | int32 | float16 | float32
deriving DecidableEq

/-- Representable integer ranges of the integer dtypes. -/
def dtypeBounds : DType → Option (ℤ × ℤ)
  | .int8 => some (-128, 127)
  | .uint8 => some (0, 255)
  | .int32 => some (-(2 ^ 31), 2 ^ 31 - 1)
  | _ => none

/-- Modelled from the spec: the helper `_quant_min_max_bounds_check` is
imported from `torch.ao.quantization.fx._decomposed` and is not part of this
repository; per spec section 4.2 it validates that `quant_min ≤ quant_max` and
that both bounds lie within the representable range of the target integer
dtype, failing before any computation otherwise. -/
def quant_min_max_bounds_check (quant_min quant_max : ℤ) (dtype : DType) :
    Bool :=
  match dtypeBounds dtype with
  | none => false
  | some (lo, hi) =>
      decide (lo ≤ quant_min) && decide (quant_max ≤ hi) &&
        decide (quant_min ≤ quant_max)

/-- `choose_qparams_per_token` (quantize.py:145-175): per-token absolute
maximum, clamped below at `1e-5`, divided by `quant_max = 127`; zero points
all 0; any dtype other than int8 raises. -/
def choose_qparams_per_token (input : List (List ℚ)) (dtype : DType) :
    Except String (List ℚ × List ℚ) :=
  let scales := input.map listAmaxAbs
  match dtype with
  | .int8 =>
      .ok (scales.map (fun s => max s (1 / 100000) / (2 ^ (8 - 1) - 1)),
        scales.map (fun _ => (0 : ℚ)))
  | _ => .error "unsupported dtype in choose_qparams_per_token"

/-- A torch tensor over exact rationals: a shape and row-major flat data. -/
structure Tensor where
  shape : List ℕ
  data : List ℚ
deriving DecidableEq

/-- `numel`: number of elements described by the shape. -/
def Tensor.numel (t : Tensor) : ℕ := t.shape.prod

/-- Torch broadcasting of two shapes given in reverse (trailing dim first). -/
def broadcastDimsRev : List ℕ → List ℕ → Option (List ℕ)
  | [], l => some l
  | l, [] => some l
  | a :: as, b :: bs =>
      match broadcastDimsRev as bs with
      | none => none
      | some rest =>
          if a = b ∨ a = 1 ∨ b = 1 then some (max a b :: rest) else none

/-- Torch broadcasting of two shapes. -/
def broadcastShapes (s1 s2 : List ℕ) : Option (List ℕ) :=
  (broadcastDimsRev s1.reverse s2.reverse).map List.reverse

/-- Multi-index of the `i`-th element of a row-major tensor of shape `s`. -/
def idxOf : List ℕ → ℕ → List ℕ
  | [], _ => []
  | _ :: rest, i => i / rest.prod :: idxOf rest (i % rest.prod)

/-- Row-major flat index of a multi-index. -/
def flatIdxOf (shape idx : List ℕ) : ℕ :=
  (List.zip shape idx).foldl (fun acc p => acc * p.1 + p.2) 0

/-- Project a broadcast output index onto an operand of shape `shape`
(drop the extra leading coordinates, clamp size-1 dimensions to 0). -/
def projIdx (shape outIdx : List ℕ) : List ℕ :=
  List.zipWith (fun j d => if d = 1 then 0 else j)
    (outIdx.drop (outIdx.length - shape.length)) shape

/-- Read the element of `t` selected, after broadcasting, by `outIdx`. -/
def Tensor.read (t : Tensor) (outIdx : List ℕ) : ℚ :=
  t.data.getD (flatIdxOf t.shape (projIdx t.shape outIdx)) 0

/-- Broadcasting elementwise binary operation (torch semantics). -/
def tbinop (f : ℚ → ℚ → ℚ) (a b : Tensor) : Except String Tensor :=
  match broadcastShapes a.shape b.shape with
  | none => .error "tensor shapes cannot be broadcast"
  | some s =>
      .ok ⟨s, (List.range s.prod).map
        (fun i => f (a.read (idxOf s i)) (b.read (idxOf s i)))⟩

/-- Elementwise map on a tensor. -/
def Tensor.mapQ (f : ℚ → ℚ) (t : Tensor) : Tensor := ⟨t.shape, t.data.map f⟩

/-- `_per_token_quant_qparam_dim_check` (quantize.py:261-268): the product of
all leading dimensions must equal the element count of `scales` and of
`zero_points`. -/
def per_token_quant_qparam_dim_check (input scales zero_points : Tensor) :
    Bool :=
  decide (input.shape.dropLast.prod = scales.numel) &&
    decide (input.shape.dropLast.prod = zero_points.numel)

/-- `quantize_per_token` (quantize.py:278-309): bounds check, then the
dimension check, then `round(input / scales + zero_points).clamp(quant_min,
quant_max).to(dtype)`. -/
def quantize_per_token (input scales zero_points : Tensor)
    (quant_min quant_max : ℤ) (dtype : DType) : Except String Tensor :=
  if ¬ (quant_min_max_bounds_check quant_min quant_max dtype = true) then
    .error "quant_min_max_bounds_check failed"
  else if ¬ (per_token_quant_qparam_dim_check input scales zero_points = true)
    then .error "num_tokens mismatch"
  else do
    let d ← tbinop (fun x s => x / s) input scales
    let a ← tbinop (fun x z => x + z) d zero_points
    .ok (a.mapQ (fun x => clampQ ((roundTE x : ℤ) : ℚ) (quant_min : ℚ)
      (quant_max : ℚ)))

/-- `dequantize_per_token` (quantize.py:332-361): `input - zero_points`, then
`* scales`.  The source performs no dimension or bounds check here. -/
def dequantize_per_token (input scales zero_points : Tensor)
    (quant_min quant_max : ℤ) (dtype output_dtype : DType) :
    Except String Tensor := do
  let s ← tbinop (fun x z => x - z) input zero_points
  let m ← tbinop (fun x sc => x * sc) s scales
  .ok m

/-- Fuel-driven chunking worker (structural, so it reduces in the kernel). -/
def chunkGo {α : Type} : ℕ → ℕ → List α → List (List α)
  | 0, _, _ => []
  | _, _, [] => []
  | fuel + 1, n, l => l.take n :: chunkGo fuel n (l.drop n)

/-- `reshape(-1, n)` of a flat list: split into consecutive chunks of `n`.
On torch inputs the length is divisible by `n` (enforced by the asserts of
the callers), so every chunk has exactly `n` elements. -/
def chunkExact {α : Type} (n : ℕ) (l : List α) : List (List α) :=
  if n = 0 then [] else chunkGo l.length n l

/-- `reshape_as(pat)` of a flat list: split it into rows with the same
lengths as the rows of `pat`. -/
def reshapeLike {α β : Type} : List (List α) → List β → List (List β)
  | [], _ => []
  | r :: rs, l => l.take r.length :: reshapeLike rs (l.drop r.length)

/-- Scale of one group in `get_group_qparams_symmetric` (quantize.py:390-400):
`amax`/`amin` over the group, extend to include 0, take the two-sided absolute
maximum, divide by `(max_int - min_int) / 2`, clamp below by float32 eps. -/
def symGroupScale (n_bit : ℕ) (g : List ℚ) : ℚ :=
  let max_val := listMax g
  let min_val := listMin g
  let min_val_neg := min min_val 0
  let max_val_pos := max max_val 0
  let max_val_abs := max (-min_val_neg) max_val_pos
  let max_int : ℤ := 2 ^ (n_bit - 1) - 1
  let min_int : ℤ := -(2 ^ (n_bit - 1))
  max (max_val_abs / (((max_int : ℚ) - (min_int : ℚ)) / 2)) eps32

/-- `w.reshape(-1, groupsize)`: the groups of a 2-D tensor. -/
def groupsOf (gs : ℕ) (w : List (List ℚ)) : List (List ℚ) :=
  chunkExact gs w.flatten

/-- The flat list of per-group scales computed by
`get_group_qparams_symmetric`. -/
def groupScalesFlat (n_bit gs : ℕ) (w : List (List ℚ)) : List ℚ :=
  (groupsOf gs w).map (symGroupScale n_bit)

/-- The flat list of per-group zero points computed by
`get_group_qparams_symmetric`: `torch.full_like(scales, 0)`. -/
def groupZerosFlat (gs : ℕ) (w : List (List ℚ)) : List ℚ :=
  (groupsOf gs w).map (fun _ => (0 : ℚ))

/-- `get_group_qparams_symmetric` (quantize.py:379-405): narrow the group size
to the trailing dimension if larger, assert `groupsize > 1`, assert
divisibility, compute per-group symmetric qparams, reshape both outputs to
`(w.shape[0], -1)`.  The NaN assert is vacuous over exact rationals and the
`precision` cast is the identity in this model. -/
def get_group_qparams_symmetric (w : List (List ℚ)) (n_bit gs : ℕ) :
    Except String (List (List ℚ) × List (List ℚ)) :=
  let d := (w.headD []).length
  let gs' := if gs > d then d else gs
  if ¬ (1 < gs') then .error "assert groupsize > 1"
  else if ¬ (d % gs' = 0) then .error "assert w.shape[-1] % groupsize == 0"
  else
    .ok (chunkExact (d / gs') (groupScalesFlat n_bit gs' w),
      chunkExact (d / gs') (groupZerosFlat gs' w))

/-- Value of a `reshape(-1, 1)` parameter column broadcast against group `i`
(torch broadcasting: a single row is reused for every group). -/
def bval (l : List ℚ) (i : ℕ) : ℚ :=
  if l.length = 1 then l.headD 0 else l.getD i 0

/-- Quantization of one group in `quantize_per_channel_group`:
`to_quant.div(scales).add(zero_points).round().clamp_(quant_min, quant_max)`. -/
def quantGroupG (quant_min quant_max : ℤ) (s z : ℚ) (g : List ℚ) : List ℤ :=
  g.map (fun x => clampZ (roundTE (x / s + z)) quant_min quant_max)

/-- Dequantization of one group in `dequantize_per_channel_group`:
`w_int8_grouped.sub(zero_points).mul(scales)`. -/
def dequantGroupG (s z : ℚ) (g : List ℤ) : List ℚ :=
  g.map (fun v => ((v : ℚ) - z) * s)

/-- Body of `quantize_per_channel_group` after the `group_size > 1` assert and
the narrowing step, taking the effective group size (quantize.py:449-468). -/
def quantize_per_channel_group_checked (input scales zero_points :
    List (List ℚ)) (quant_min quant_max : ℤ) (dtype : DType) (gsE : ℕ) :
    Except String (List (List ℤ)) :=
  if ¬ ((input.headD []).length % gsE = 0) then
    .error "assert input.shape[-1] % group_size == 0"
  else
    let to_quant := chunkExact gsE input.flatten
    let s := scales.flatten
    let z := zero_points.flatten
    if ¬ (s.length = to_quant.length ∨ s.length = 1) then
      .error "scales cannot be broadcast"
    else if ¬ (z.length = to_quant.length ∨ z.length = 1) then
      .error "zero_points cannot be broadcast"
    else
      .ok (reshapeLike input ((to_quant.enum.map
        (fun p => quantGroupG quant_min quant_max (bval s p.1) (bval z p.1)
          p.2)).flatten))

/-- `quantize_per_channel_group` (quantize.py:435-468): assert
`group_size > 1`; if the requested group size exceeds the trailing dimension
and `scales.shape[-1] == 1`, silently narrow it to the trailing dimension;
then proceed with the checked body. -/
def quantize_per_channel_group (input scales zero_points : List (List ℚ))
    (quant_min quant_max : ℤ) (dtype : DType) (group_size : ℕ) :
    Except String (List (List ℤ)) :=
  if ¬ (1 < group_size) then .error "assert group_size > 1"
  else
    quantize_per_channel_group_checked input scales zero_points quant_min
      quant_max dtype
      (if group_size > (input.headD []).length ∧
          (scales.headD []).length = 1 then
        (input.headD []).length
      else group_size)

/-- Body of `dequantize_per_channel_group` after the `group_size > 1` assert
and the narrowing step (quantize.py:569-578). -/
def dequantize_per_channel_group_checked (w_int8 : List (List ℤ))
    (scales zero_points : List (List ℚ)) (quant_min quant_max : ℤ)
    (dtype : DType) (gsE : ℕ) : Except String (List (List ℚ)) :=
  if ¬ ((w_int8.headD []).length % gsE = 0) then
    .error "assert w_int8.shape[-1] % group_size == 0"
  else
    let grouped := chunkExact gsE w_int8.flatten
    let s := scales.flatten
    let z := zero_points.flatten
    if ¬ (s.length = grouped.length ∨ s.length = 1) then
      .error "scales cannot be broadcast"
    else if ¬ (z.length = grouped.length ∨ z.length = 1) then
      .error "zero_points cannot be broadcast"
    else
      .ok (reshapeLike w_int8 ((grouped.enum.map
        (fun p => dequantGroupG (bval s p.1) (bval z p.1) p.2)).flatten))

/-- `dequantize_per_channel_group` (quantize.py:536-578): the same
`group_size > 1` assert and narrowing rule as the quantize path, then the
checked body. -/
def dequantize_per_channel_group (w_int8 : List (List ℤ))
    (scales zero_points : List (List ℚ)) (quant_min quant_max : ℤ)
    (dtype : DType) (group_size : ℕ) (output_dtype : DType) :
    Except String (List (List ℚ)) :=
  if ¬ (1 < group_size) then .error "assert group_size > 1"
  else
    dequantize_per_channel_group_checked w_int8 scales zero_points quant_min
      quant_max dtype
      (if group_size > (w_int8.headD []).length ∧
          (scales.headD []).length = 1 then
        (w_int8.headD []).length
      else group_size)

/-- `group_quantize_tensor_symmetric` (quantize.py:509-522): choose symmetric
group qparams, then quantize with the int4 range (`n_bit` is reassigned to 4
before computing `min_int`/`max_int`). -/
def group_quantize_tensor_symmetric (w : List (List ℚ)) (n_bit gs : ℕ) :
    Except String (List (List ℤ) × List (List ℚ) × List (List ℚ)) :=
  match get_group_qparams_symmetric w n_bit gs with
  | .error e => .error e
  | .ok (scales, zeros) =>
      let max_int : ℤ := 2 ^ (4 - 1) - 1
      let min_int : ℤ := -(2 ^ (4 - 1))
      match quantize_per_channel_group w scales zeros min_int max_int .int8
          gs with
      | .error e => .error e
      | .ok w_int8 => .ok (w_int8, scales, zeros)

/-- Scale of one group in `dynamically_quantize_per_channel`
(quantize.py:102-116): `aminmax` over the group, extend min/max to include 0,
two-sided absolute maximum, divide by `(quant_max - quant_min) / 2`, clamp
below by float32 eps. -/
def dynGroupScale (quant_min quant_max : ℤ) (g : List ℚ) : ℚ :=
  let min_val := listMin g
  let max_val := listMax g
  let min_val_neg := min min_val 0
  let max_val_pos := max max_val 0
  let max_val_pos2 := max (-min_val_neg) max_val_pos
  max (max_val_pos2 / (((quant_max : ℚ) - (quant_min : ℚ)) / 2)) eps32

/-- Quantization of one group in `dynamically_quantize_per_channel`
(quantize.py:121-126): `round(x / scale)` plus the (zero) zero point, clamped
to `[quant_min, quant_max]`, cast to the target integer dtype. -/
def quantGroupD (quant_min quant_max : ℤ) (s : ℚ) (g : List ℚ) : List ℤ :=
  g.map (fun x => clampZ (roundTE (x / s)) quant_min quant_max)

/-- Grouped computation of `dynamically_quantize_per_channel` after padding:
per-row view `(rows, row_len // items, items)`, per-group qparams, quantize,
flatten each row back, and trim each row to the original trailing dimension
`quant = quant[:, :x_shape_1]` (quantize.py:100-131). -/
def dynamically_quantize_per_channel_core (xp : List (List ℚ))
    (quant_min quant_max : ℤ) (n items : ℕ) :
    List (List ℤ) × List (List ℚ) × List (List ℤ) :=
  (xp.map (fun r => (((chunkExact items r).map
      (fun g => quantGroupD quant_min quant_max
        (dynGroupScale quant_min quant_max g) g)).flatten).take n),
    xp.map (fun r => (chunkExact items r).map
      (dynGroupScale quant_min quant_max)),
    xp.map (fun r => (chunkExact items r).map (fun _ => (0 : ℤ))))

/-- `dynamically_quantize_per_channel` (quantize.py:40-131): group-size branch
selection; when the row length is not a multiple of a positive group size and
non-multiple groups are enabled, right-pad every row with zeros to the next
multiple before grouping.  `scales_dtype` casts are the identity here. -/
def dynamically_quantize_per_channel (x : List (List ℚ))
    (quant_min quant_max : ℤ) (group_size : Option ℕ)
    (enable_non_multiple_groups : Bool) :
    Except String (List (List ℤ) × List (List ℚ) × List (List ℤ)) :=
  let x_shape_1 := (x.headD []).length
  match group_size with
  | none =>
      .ok (dynamically_quantize_per_channel_core x quant_min quant_max
        x_shape_1 x_shape_1)
  | some gs =>
      if gs = 0 then
        .ok (dynamically_quantize_per_channel_core x quant_min quant_max
          x_shape_1 x_shape_1)
      else if x_shape_1 % gs = 0 ∨ enable_non_multiple_groups = false then
        if ¬ (x_shape_1 % gs = 0) then
          .error "assert weights dimension 1 must be a multiple of group size"
        else
          .ok (dynamically_quantize_per_channel_core x quant_min quant_max
            x_shape_1 gs)
      else
        .ok (dynamically_quantize_per_channel_core
          (x.map (fun r => r ++ List.replicate (gs - x_shape_1 % gs) 0))
          quant_min quant_max x_shape_1 gs)

/-- Claim C2 (code_bug evidence): the 4-bit pack/unpack round trip fails on the
in-range int8 input `[0, -1]` (even trailing dimension, values in `[-8, 7]`):
packing gives the byte `0xFF` because the unmasked negative second element
pollutes the high nibble, and unpacking returns `[-1, 15] ≠ [0, -1]`. -/
theorem pack_unpack_roundtrip_fails :
    pack_int4_from_int8 [2] [0, -1] = .ok [-1]
    ∧ unpack_int4_to_int8 [-1] = [-1, 15]
    ∧ ([-1, 15] : List ℤ) ≠ [0, -1] :=
  ⟨rfl, by decide, by decide⟩

/-! ### Helper lemmas -/

theorem foldl_min_le_foldl_max : ∀ (t : List ℚ) (a b : ℚ), a ≤ b →
    t.foldl min a ≤ t.foldl max b := by
  intro t
  induction t with
  | nil => exact fun a b h => h
  | cons x xs ih =>
      intro a b h
      exact ih (min a x) (max b x)
        (le_trans (min_le_left a x) (le_trans h (le_max_left b x)))

theorem listMin_le_listMax (l : List ℚ) (h : l ≠ []) : listMin l ≤ listMax l := by
  cases l with
  | nil => exact absurd rfl h
  | cons x xs => exact foldl_min_le_foldl_max xs x x le_rfl

theorem negMin_max_eq_abs (m M : ℚ) (h : m ≤ M) :
    max (-(min m 0)) (max M 0) = max |m| |M| := by
  rcases le_total m 0 with hm | hm <;> rcases le_total 0 M with hM | hM
  · rw [min_eq_left hm, max_eq_left hM, abs_of_nonpos hm, abs_of_nonneg hM]
  · rw [min_eq_left hm, max_eq_right hM, abs_of_nonpos hm, abs_of_nonpos hM]
    rw [max_eq_left (by linarith), max_eq_left (by linarith)]
  · rw [min_eq_right hm, max_eq_left hM, abs_of_nonneg hm, abs_of_nonneg hM]
    rw [neg_zero, max_eq_right (by linarith), max_eq_right h]
  · have hm0 : m = 0 := le_antisymm (le_trans h hM) hm
    have hM0 : M = 0 := le_antisymm hM (le_trans hm h)
    subst hm0; subst hM0; simp

theorem chunkGo_flatten {α : Type} (n : ℕ) (hn : 0 < n) :
    ∀ (fuel : ℕ) (l : List α), l.length ≤ fuel →
      (chunkGo fuel n l).flatten = l := by
  intro fuel
  induction fuel with
  | zero =>
      intro l hl
      rw [List.length_eq_zero.mp (Nat.le_zero.mp hl)]
      rfl
  | succ fuel ih =>
      intro l hl
      cases l with
      | nil => rfl
      | cons x xs =>
          show ((x :: xs).take n :: chunkGo fuel n ((x :: xs).drop n)).flatten
            = x :: xs
          rw [List.flatten_cons, ih ((x :: xs).drop n)
            (by simp only [List.length_drop, List.length_cons]
                simp only [List.length_cons] at hl
                omega),
            List.take_append_drop]

theorem chunkExact_flatten {α : Type} (n : ℕ) (hn : 0 < n) (l : List α) :
    (chunkExact n l).flatten = l := by
  unfold chunkExact
  rw [if_neg (Nat.pos_iff_ne_zero.mp hn)]
  exact chunkGo_flatten n hn l.length l le_rfl

theorem chunkGo_length_congr {α β : Type} :
    ∀ (fuel n : ℕ) (l1 : List α) (l2 : List β), l1.length = l2.length →
      (chunkGo fuel n l1).length = (chunkGo fuel n l2).length := by
  intro fuel
  induction fuel with
  | zero => intro n l1 l2 _; cases l1 <;> cases l2 <;> rfl
  | succ fuel ih =>
      intro n l1 l2 h
      cases l1 with
      | nil =>
          cases l2 with
          | nil => rfl
          | cons y ys => exact absurd h (by simp)
      | cons x xs =>
          cases l2 with
          | nil => exact absurd h (by simp)
          | cons y ys =>
              show ((x :: xs).take n :: chunkGo fuel n ((x :: xs).drop n)).length
                = ((y :: ys).take n :: chunkGo fuel n ((y :: ys).drop n)).length
              simp only [List.length_cons]
              rw [ih n ((x :: xs).drop n) ((y :: ys).drop n) (by
                simp only [List.length_cons] at h
                simp only [List.length_drop, List.length_cons]
                omega)]

theorem chunkExact_length_congr {α β : Type} (n : ℕ) (l1 : List α)
    (l2 : List β) (h : l1.length = l2.length) :
    (chunkExact n l1).length = (chunkExact n l2).length := by
  unfold chunkExact
  rw [h]
  split
  · rfl
  · exact chunkGo_length_congr l2.length n l1 l2 h

theorem chunkGo_one_length {α : Type} :
    ∀ (fuel : ℕ) (l : List α), l.length ≤ fuel →
      (chunkGo fuel 1 l).length = l.length := by
  intro fuel
  induction fuel with
  | zero =>
      intro l hl
      rw [List.length_eq_zero.mp (Nat.le_zero.mp hl)]
      rfl
  | succ fuel ih =>
      intro l hl
      cases l with
      | nil => rfl
      | cons x xs =>
          show (chunkGo fuel 1 ((x :: xs).drop 1)).length + 1 = xs.length + 1
          rw [List.drop_one, List.tail_cons, ih xs (by simpa using hl)]

theorem chunkExact_one_length {α : Type} (l : List α) :
    (chunkExact 1 l).length = l.length := by
  unfold chunkExact
  rw [if_neg one_ne_zero]
  exact chunkGo_one_length l.length l le_rfl

theorem mem_of_mem_chunkGo {α : Type} :
    ∀ (fuel n : ℕ) (l : List α) (c : List α), c ∈ chunkGo fuel n l →
      ∀ x ∈ c, x ∈ l := by
  intro fuel
  induction fuel with
  | zero => intro n l c hc; exact absurd hc (by simp [chunkGo])
  | succ fuel ih =>
      intro n l c hc x hx
      cases l with
      | nil => exact absurd hc (by simp [chunkGo])
      | cons a as =>
          rcases (by simpa [chunkGo] using hc :
              c = (a :: as).take n ∨ c ∈ chunkGo fuel n ((a :: as).drop n))
            with h | h
          · exact List.mem_of_mem_take (h ▸ hx)
          · exact List.mem_of_mem_drop (ih n _ c h x hx)

theorem mem_of_mem_chunkExact {α : Type} (n : ℕ) (l : List α) (c : List α)
    (hc : c ∈ chunkExact n l) : ∀ x ∈ c, x ∈ l := by
  unfold chunkExact at hc
  split at hc
  · exact absurd hc (by simp)
  · exact mem_of_mem_chunkGo l.length n l c hc

theorem reshapeLike_map_length {α β : Type} :
    ∀ (pat : List (List α)) (l : List β),
      (pat.map List.length).sum ≤ l.length →
      (reshapeLike pat l).map List.length = pat.map List.length := by
  intro pat
  induction pat with
  | nil => intro l _; rfl
  | cons r rs ih =>
      intro l h
      simp only [List.map_cons, List.sum_cons] at h
      show (l.take r.length).length :: (reshapeLike rs (l.drop r.length)).map
        List.length = r.length :: rs.map List.length
      rw [List.length_take, min_eq_left (by omega),
        ih (l.drop r.length) (by simp; omega)]

theorem flatten_map_congr_length {α β : Type} (f : List α → List β)
    (hf : ∀ g, (f g).length = g.length) (L : List (List α)) :
    ((L.map f).flatten).length = L.flatten.length := by
  induction L with
  | nil => rfl
  | cons g gs ih => simp [hf, ih]

theorem flatten_enumFrom_map_length {α β : Type} (f : ℕ → List α → List β)
    (hf : ∀ i g, (f i g).length = g.length) :
    ∀ (L : List (List α)) (k : ℕ),
      (((L.enumFrom k).map (fun p => f p.1 p.2)).flatten).length
        = L.flatten.length := by
  intro L
  induction L with
  | nil => intro k; rfl
  | cons g gs ih =>
      intro k
      simp only [List.enumFrom_cons, List.map_cons, List.flatten_cons,
        List.length_append, hf, ih, List.flatten_cons]

theorem flatten_enum_map_length {α β : Type} (f : ℕ → List α → List β)
    (hf : ∀ i g, (f i g).length = g.length) (L : List (List α)) :
    ((L.enum.map (fun p => f p.1 p.2)).flatten).length = L.flatten.length :=
  flatten_enumFrom_map_length f hf L 0

/-! ### Claim theorems -/

/-- Claim C1: for every (non-empty) input row of
`choose_qparams_per_token_asymmetric` (qmin = -128, qmax = 127), the scale is
`(max(max_val, 0) - min(min_val, 0)) / (qmax - qmin)` clamped below by float32
machine epsilon, and the zero point follows the exact
`zero_point_from_min_error + zero_point_from_max_error > 0` rule, clamped to
`[qmin, qmax]` and then rounded.  The final two conjuncts exhibit the rule's
asymmetry under mirroring min and max: the rows `[-1, 3]` and `[-3, 1]` give
zero points `-64` and `63`, which are not negatives of each other. -/
theorem choose_qparams_per_token_asymmetric_spec :
    (∀ input : List (List ℚ), (∀ r ∈ input, r ≠ []) →
      choose_qparams_per_token_asymmetric input
        = (input.map specAsymmScale, input.map specAsymmZeroPoint))
    ∧ (choose_qparams_per_token_asymmetric [[-1, 3]]).2 = [-64]
    ∧ (choose_qparams_per_token_asymmetric [[-3, 1]]).2 = [63] := by
  refine ⟨fun input _ => rfl, ?_, ?_⟩
  · norm_num [choose_qparams_per_token_asymmetric, asymmRow, listMin, listMax,
      eps32, clampQ, roundTE, round_eq, max_def, min_def]
    intro hfr
    rw [Int.fract] at hfr
    norm_num at hfr
  · norm_num [choose_qparams_per_token_asymmetric, asymmRow, listMin, listMax,
      eps32, clampQ, roundTE, round_eq, max_def, min_def]
    intro hfr
    rw [Int.fract] at hfr
    norm_num at hfr

/-- Witness for C1 at the concrete row `[5]`. -/
theorem choose_qparams_per_token_asymmetric_spec_witness :
    choose_qparams_per_token_asymmetric [[5]]
      = ([specAsymmScale [5]], [specAsymmZeroPoint [5]]) :=
  choose_qparams_per_token_asymmetric_spec.1 [[5]] (by simp)

/-- Claim C4: per non-empty group, the symmetric qparam chooser computes
`scale = max(|min_val|, |max_val|) / ((quant_max - quant_min) / 2)` clamped
below by float32 machine epsilon, hence a strictly positive scale; and at the
function level every returned zero point is 0. -/
theorem get_group_qparams_symmetric_spec :
    (∀ (n_bit : ℕ) (g : List ℚ), g ≠ [] →
      symGroupScale n_bit g
        = max (max |listMin g| |listMax g|
            / ((((2 ^ (n_bit - 1) - 1 : ℤ) : ℚ) - ((-(2 ^ (n_bit - 1)) : ℤ) : ℚ)) / 2))
          eps32
      ∧ 0 < symGroupScale n_bit g)
    ∧ (∀ (w : List (List ℚ)) (n_bit gs : ℕ) (s z : List (List ℚ)),
        get_group_qparams_symmetric w n_bit gs = .ok (s, z) →
        ∀ row ∈ z, ∀ v ∈ row, v = 0) := by
  constructor
  · intro n_bit g hg
    constructor
    · show max (max (-(min (listMin g) 0)) (max (listMax g) 0) / _) eps32 = _
      rw [negMin_max_eq_abs (listMin g) (listMax g) (listMin_le_listMax g hg),
        max_comm]
    · exact lt_of_lt_of_le (by norm_num [eps32]) (le_max_right _ _)
  · intro w n_bit gs s z hok row hrow v hv
    simp only [get_group_qparams_symmetric] at hok
    set d := (w.headD []).length with hdd
    set gs2 := if gs > d then d else gs with hgs2
    by_cases h1 : 1 < gs2
    · rw [if_neg (not_not_intro h1)] at hok
      by_cases h2 : d % gs2 = 0
      · rw [if_neg (not_not_intro h2)] at hok
        simp only [Except.ok.injEq, Prod.mk.injEq] at hok
        obtain ⟨-, hz⟩ := hok
        subst hz
        have hmem := mem_of_mem_chunkExact _ _ row hrow v hv
        simp only [groupZerosFlat, List.mem_map] at hmem
        obtain ⟨-, -, h0⟩ := hmem
        exact h0.symm
      · rw [if_pos h2] at hok
        exact absurd hok (by simp)
    · rw [if_pos h1] at hok
      exact absurd hok (by simp)

/-- Witness for C4 at the all-zero group `[0]` with `n_bit = 4`. -/
theorem get_group_qparams_symmetric_spec_witness :
    0 < symGroupScale 4 [0] :=
  (get_group_qparams_symmetric_spec.1 4 [0] (by simp)).2

/-- Claim C7 counterexample: on the all-zero token `[0]` with int8,
`choose_qparams_per_token` returns scale `1e-5 / 127 = 1/12700000`, not
`max(|values|) / quant_max = 0` as the claim states (the code clamps the
per-token absolute maximum at `1e-5` before dividing). -/
theorem choose_qparams_per_token_zero_token :
    choose_qparams_per_token [[0]] .int8 = .ok ([1 / 12700000], [0])
    ∧ ¬ ((1 : ℚ) / 12700000 = listAmaxAbs [0] / 127) := by
  constructor
  · simp only [choose_qparams_per_token, List.map_cons, List.map_nil,
      Except.ok.injEq, Prod.mk.injEq]
    norm_num [listAmaxAbs]
  · norm_num [listAmaxAbs]

/-- Claim C7 (amended): `choose_qparams_per_token` errors for every dtype
other than int8; for int8 it returns, per token, zero point 0 and scale
`max(max(|values|), 1e-5) / 127`. -/
theorem choose_qparams_per_token_spec :
    ∀ (input : List (List ℚ)) (dtype : DType),
      (dtype ≠ .int8 → choose_qparams_per_token input dtype
        = .error "unsupported dtype in choose_qparams_per_token")
      ∧ choose_qparams_per_token input .int8
        = .ok (input.map (fun r => max (listAmaxAbs r) (1 / 100000) / 127),
            input.map (fun _ => (0 : ℚ))) := by
  intro input dtype
  have h127 : ((2 : ℚ) ^ (8 - 1) - 1) = 127 := by norm_num
  constructor
  · intro h
    cases dtype <;> simp_all [choose_qparams_per_token]
  · simp [choose_qparams_per_token, List.map_map, Function.comp_def, h127]

/-- Witness for C7 at the concrete input `[[2]]` with dtype float16. -/
theorem choose_qparams_per_token_spec_witness :
    choose_qparams_per_token [[2]] .float16
      = .error "unsupported dtype in choose_qparams_per_token" :=
  (choose_qparams_per_token_spec [[2]] .float16).1 (by simp)

/-- Claim C9: every scale returned by `choose_qparams_per_token` for int8 is
at least `1e-5 / 127 = 1/12700000`; the bound is attained on an all-zero
token, and it is this bound - not the float32 machine epsilon used by the
other qparam choosers - that governs (indeed `1/12700000 < eps32`). -/
theorem choose_qparams_per_token_scale_lower_bound :
    (∀ (input : List (List ℚ)) (L : List ℚ × List ℚ),
      choose_qparams_per_token input .int8 = .ok L →
      ∀ s ∈ L.1, 1 / 12700000 ≤ s)
    ∧ choose_qparams_per_token [[0]] .int8 = .ok ([1 / 12700000], [0])
    ∧ (1 : ℚ) / 12700000 < eps32 := by
  refine ⟨?_, ?_, by norm_num [eps32]⟩
  case refine_2 =>
    simp only [choose_qparams_per_token, List.map_cons, List.map_nil,
      Except.ok.injEq, Prod.mk.injEq]
    norm_num [listAmaxAbs]
  · intro input L hok s hs
    have h127 : ((2 : ℚ) ^ (8 - 1) - 1) = 127 := by norm_num
    simp only [choose_qparams_per_token, Except.ok.injEq] at hok
    rw [← hok] at hs
    simp only [List.map_map, List.mem_map, Function.comp_def] at hs
    obtain ⟨r, -, hr⟩ := hs
    rw [← hr, h127, show (1 : ℚ) / 12700000 = (1 / 100000) / 127 by norm_num]
    have h1 : (1 : ℚ) / 100000 ≤ max (listAmaxAbs r) (1 / 100000) :=
      le_max_right _ _
    exact div_le_div_of_nonneg_right h1 (by norm_num)

/-- Witness for C9 at the concrete input `[[0]]`. -/
theorem choose_qparams_per_token_scale_lower_bound_witness :
    (1 : ℚ) / 12700000 ≤ 1 / 12700000 :=
  choose_qparams_per_token_scale_lower_bound.1 [[0]] ([1 / 12700000], [0])
    choose_qparams_per_token_scale_lower_bound.2.1 (1 / 12700000) (by simp)

/-- Claim C8: per-group independence of the symmetric group qparam chooser:
if two inputs have the same group `i` (under the same group size), the
computed scale and zero point for group `i` coincide. -/
theorem get_group_qparams_symmetric_per_group_independent :
    ∀ (n_bit gs i : ℕ) (w1 w2 : List (List ℚ)),
      (groupsOf gs w1)[i]? = (groupsOf gs w2)[i]? →
      (groupScalesFlat n_bit gs w1)[i]? = (groupScalesFlat n_bit gs w2)[i]?
      ∧ (groupZerosFlat gs w1)[i]? = (groupZerosFlat gs w2)[i]? := by
  intro n_bit gs i w1 w2 h
  constructor <;>
    simp only [groupScalesFlat, groupZerosFlat, List.getElem?_map, h]

/-- Witness for C8: `w2` differs from `w1` only in group 1; group 0's qparams
agree. -/
theorem get_group_qparams_symmetric_per_group_independent_witness :
    (groupScalesFlat 4 2 [[1, 2, 3, 4]])[0]?
      = (groupScalesFlat 4 2 [[1, 2, 9, 9]])[0]?
    ∧ (groupZerosFlat 2 [[1, 2, 3, 4]])[0]? = (groupZerosFlat 2 [[1, 2, 9, 9]])[0]? :=
  get_group_qparams_symmetric_per_group_independent 4 2 0 [[1, 2, 3, 4]]
    [[1, 2, 9, 9]] (by norm_num [groupsOf, chunkExact, chunkGo])

/-- Claim C10: on any 2-D input whose trailing dimension is 1, the symmetric
group qparam chooser always fails its `groupsize > 1` assert (the group size
is narrowed to the trailing dimension first), so
`group_quantize_tensor_symmetric` can never quantize a single-column weight
matrix; yet `quantize_per_channel_group` itself accepts such inputs via its
own narrowing rule (its `group_size > 1` assert is checked before
narrowing). -/
theorem single_column_group_qparams_fail :
    ∀ (w : List (List ℚ)) (n_bit gs : ℕ), w ≠ [] → (∀ r ∈ w, r.length = 1) →
      (∃ e, get_group_qparams_symmetric w n_bit gs = .error e)
      ∧ (∃ e, group_quantize_tensor_symmetric w n_bit gs = .error e)
      ∧ (∀ (scales zero_points : List (List ℚ)) (qmin qmax : ℤ) (dt : DType)
          (gs2 : ℕ), 1 < gs2 → (scales.headD []).length = 1 →
          (scales.flatten.length = w.flatten.length
            ∨ scales.flatten.length = 1) →
          (zero_points.flatten.length = w.flatten.length
            ∨ zero_points.flatten.length = 1) →
          ∃ q, quantize_per_channel_group w scales zero_points qmin qmax dt
            gs2 = .ok q) := by
  intro w n_bit gs hne h1
  have hd : (w.headD []).length = 1 := by
    cases w with
    | nil => exact absurd rfl hne
    | cons r rs => exact h1 r (List.mem_cons_self r rs)
  have herr : get_group_qparams_symmetric w n_bit gs
      = .error "assert groupsize > 1" := by
    simp only [get_group_qparams_symmetric, hd]
    by_cases hgs : gs > 1
    · rw [if_pos hgs, if_pos (by norm_num)]
    · rw [if_neg hgs, if_pos (by omega)]
  refine ⟨⟨_, herr⟩, ⟨"assert groupsize > 1",
    by simp only [group_quantize_tensor_symmetric, herr]⟩, ?_⟩
  intro scales zero_points qmin qmax dt gs2 hgs2 hs hslen hzlen
  have hcond : gs2 > (w.headD []).length ∧ (scales.headD []).length = 1 := by
    rw [hd]; exact ⟨hgs2, hs⟩
  have hlen1 : (chunkExact 1 w.flatten).length = w.flatten.length :=
    chunkExact_one_length w.flatten
  exact ⟨_, by
    simp only [quantize_per_channel_group, quantize_per_channel_group_checked]
    rw [if_neg (not_not_intro hgs2), if_pos hcond, hd,
      if_neg (not_not_intro (show 1 % 1 = 0 by norm_num)), hlen1,
      if_neg (not_not_intro hslen), if_neg (not_not_intro hzlen)]⟩

/-- Witness for C10 on the concrete single-column matrix `[[1], [2]]`. -/
theorem single_column_group_qparams_fail_witness :
    ∃ q, quantize_per_channel_group [[1], [2]] [[1], [1]] [[0], [0]]
      (-8) 7 .int8 2 = .ok q :=
  (single_column_group_qparams_fail [[1], [2]] 4 8 (by simp)
      (by
        intro r hr
        simp only [List.mem_cons, List.not_mem_nil, or_false] at hr
        rcases hr with rfl | rfl <;> rfl)).2.2
    [[1], [1]] [[0], [0]] (-8) 7 .int8 2 (by norm_num) (by simp)
    (by simp) (by simp)

/-- Claim C3 counterexample: `dequantize_per_token` does NOT verify the token
count.  With input of shape `(2, 3, 8)` (6 tokens) and 8-element scales and
zero points, the dimension check is violated, yet the source computes an
output (the 8-element parameters silently broadcast along the last
dimension). -/
theorem dequantize_per_token_no_dim_check :
    per_token_quant_qparam_dim_check ⟨[2, 3, 8], List.replicate 48 0⟩
      ⟨[8], List.replicate 8 1⟩ ⟨[8], List.replicate 8 0⟩ = false
    ∧ dequantize_per_token ⟨[2, 3, 8], List.replicate 48 0⟩
      ⟨[8], List.replicate 8 1⟩ ⟨[8], List.replicate 8 0⟩ (-128) 127
      .int8 .float32 = .ok ⟨[2, 3, 8], List.replicate 48 0⟩ := by
  constructor
  · decide
  · simp [dequantize_per_token, tbinop, broadcastShapes, broadcastDimsRev,
      Tensor.read, idxOf, flatIdxOf, projIdx, List.range_succ, Except.bind,
      bind]

/-- Claim C3 (amended): `quantize_per_token` verifies that the product of the
leading dimensions equals the element count of `scales` and of `zero_points`,
failing with a dimension-mismatch error (after the `quant_min`/`quant_max`
bounds check) before computing any output; `dequantize_per_token` performs no
such verification and can return an output on mismatched counts. -/
theorem quantize_per_token_dim_check_spec :
    (∀ (input scales zero_points : Tensor) (quant_min quant_max : ℤ)
      (dtype : DType),
      quant_min_max_bounds_check quant_min quant_max dtype = true →
      per_token_quant_qparam_dim_check input scales zero_points = false →
      quantize_per_token input scales zero_points quant_min quant_max dtype
        = .error "num_tokens mismatch")
    ∧ dequantize_per_token ⟨[6, 8], List.replicate 48 0⟩
      ⟨[8], List.replicate 8 1⟩ ⟨[8], List.replicate 8 0⟩ (-128) 127
      .int8 .float32 = .ok ⟨[6, 8], List.replicate 48 0⟩ := by
  constructor
  · intro input scales zero_points quant_min quant_max dtype hb hd
    simp [quantize_per_token, hb, hd]
  · simp [dequantize_per_token, tbinop, broadcastShapes, broadcastDimsRev,
      Tensor.read, idxOf, flatIdxOf, projIdx, List.range_succ, Except.bind,
      bind]

/-- Witness for C3 at the claim's example: shape `(2, 3, 8)` with 5-element
scales and zero points fails the quantize path with the dimension error. -/
theorem quantize_per_token_dim_check_spec_witness :
    quantize_per_token ⟨[2, 3, 8], List.replicate 48 0⟩
      ⟨[5], List.replicate 5 1⟩ ⟨[5], List.replicate 5 0⟩ (-128) 127 .int8
      = .error "num_tokens mismatch" :=
  quantize_per_token_dim_check_spec.1 ⟨[2, 3, 8], List.replicate 48 0⟩
    ⟨[5], List.replicate 5 1⟩ ⟨[5], List.replicate 5 0⟩ (-128) 127 .int8
    (by decide) (by decide)

/-- Claim C5: for every 2-D input whose row length `N` is not divisible by a
positive `group_size` (non-multiple groups enabled),
`dynamically_quantize_per_channel` succeeds (padding, not an error), and the
returned quantized tensor has exactly the caller's original shape: one row
per input row, each of length `N` (the zero padding added before grouping is
trimmed back off). -/
theorem dynamically_quantize_per_channel_pad_shape :
    ∀ (x : List (List ℚ)) (quant_min quant_max : ℤ) (gs N : ℕ),
      gs ≠ 0 → (x.headD []).length = N → ¬ (N % gs = 0) →
      (∀ r ∈ x, r.length = N) →
      ∃ q s z, dynamically_quantize_per_channel x quant_min quant_max
          (some gs) true = .ok (q, s, z)
        ∧ q.length = x.length ∧ (∀ r ∈ q, r.length = N) := by
  intro x quant_min quant_max gs N hgs hN hndiv hu
  have hx : dynamically_quantize_per_channel x quant_min quant_max (some gs)
      true = .ok (dynamically_quantize_per_channel_core
        (x.map (fun r => r ++ List.replicate (gs - N % gs) 0))
        quant_min quant_max N gs) := by
    simp only [dynamically_quantize_per_channel, hN]
    rw [if_neg hgs, if_neg (by simp [hndiv])]
  refine ⟨_, _, _, hx, ?_, ?_⟩
  · simp [dynamically_quantize_per_channel_core]
  · intro r hr
    simp only [dynamically_quantize_per_channel_core, List.map_map,
      List.mem_map, Function.comp_def] at hr
    obtain ⟨row, hrow, hr⟩ := hr
    have hflat : ((chunkExact gs (row ++ List.replicate (gs - N % gs) 0)).map
        (fun g => quantGroupD quant_min quant_max
          (dynGroupScale quant_min quant_max g) g)).flatten.length
        = N + (gs - N % gs) := by
      rw [flatten_map_congr_length _ (fun g => by simp [quantGroupD]),
        chunkExact_flatten gs (Nat.pos_of_ne_zero hgs)]
      simp [hu row hrow]
    rw [← hr]
    simp only [List.length_take, hflat]
    omega

/-- Witness for C5 on the concrete row `[1, 2, 3]` with group size 2. -/
theorem dynamically_quantize_per_channel_pad_shape_witness :
    ∃ q s z, dynamically_quantize_per_channel [[1, 2, 3]] (-128) 127
        (some 2) true = .ok (q, s, z)
      ∧ q.length = 1 ∧ (∀ r ∈ q, r.length = 3) :=
  dynamically_quantize_per_channel_pad_shape [[1, 2, 3]] (-128) 127 2 3
    (by norm_num) rfl (by norm_num)
    (by
      intro r hr
      simp only [List.mem_cons, List.not_mem_nil, or_false] at hr
      subst hr
      rfl)

/-- The checked dequantize body succeeds whenever its divisibility and
broadcast conditions hold. -/
theorem dequantize_checked_ok (w : List (List ℤ))
    (scales zero_points : List (List ℚ)) (qmin qmax : ℤ) (dt : DType)
    (gsE : ℕ)
    (h1 : (w.headD []).length % gsE = 0)
    (h2 : scales.flatten.length = (chunkExact gsE w.flatten).length
      ∨ scales.flatten.length = 1)
    (h3 : zero_points.flatten.length = (chunkExact gsE w.flatten).length
      ∨ zero_points.flatten.length = 1) :
    ∃ r, dequantize_per_channel_group_checked w scales zero_points qmin qmax
      dt gsE = .ok r :=
  ⟨_, by
    simp only [dequantize_per_channel_group_checked]
    rw [if_neg (not_not_intro h1), if_neg (not_not_intro h2),
      if_neg (not_not_intro h3)]⟩

/-- Claim C6: `quantize_per_channel_group` and `dequantize_per_channel_group`
apply the same narrowing rule (requested group size replaced by the trailing
dimension when it exceeds it and the scales trailing dimension is 1), a
quantize followed by a dequantize with the same arguments never fails the
group-size shape checks, and outside the narrowing case the trailing
dimension must be divisible by the group size or both calls fail. -/
theorem per_channel_group_narrowing :
    ∀ (input : List (List ℚ)) (w : List (List ℤ))
      (scales zero_points : List (List ℚ)) (qmin qmax : ℤ) (dt odt : DType)
      (gs d : ℕ),
      1 < gs → (input.headD []).length = d → (w.headD []).length = d →
      0 < d → (∀ r ∈ input, r.length = d) →
      ((gs > d ∧ (scales.headD []).length = 1 →
          quantize_per_channel_group input scales zero_points qmin qmax dt gs
            = quantize_per_channel_group_checked input scales zero_points
              qmin qmax dt d
          ∧ dequantize_per_channel_group w scales zero_points qmin qmax dt gs
              odt
            = dequantize_per_channel_group_checked w scales zero_points qmin
              qmax dt d)
      ∧ (∀ q, quantize_per_channel_group input scales zero_points qmin qmax
            dt gs = .ok q →
          ∃ r, dequantize_per_channel_group q scales zero_points qmin qmax dt
            gs odt = .ok r)
      ∧ (¬ (gs > d ∧ (scales.headD []).length = 1) → ¬ (d % gs = 0) →
          quantize_per_channel_group input scales zero_points qmin qmax dt gs
            = .error "assert input.shape[-1] % group_size == 0"
          ∧ dequantize_per_channel_group w scales zero_points qmin qmax dt gs
              odt = .error "assert w_int8.shape[-1] % group_size == 0")) := by
  intro input w scales zero_points qmin qmax dt odt gs d hgs hind hwd hd0 hu
  refine ⟨?_, ?_, ?_⟩
  · rintro ⟨h1, h2⟩
    constructor
    · simp only [quantize_per_channel_group]
      rw [if_neg (not_not_intro hgs), hind, if_pos ⟨h1, h2⟩]
    · simp only [dequantize_per_channel_group]
      rw [if_neg (not_not_intro hgs), hwd, if_pos ⟨h1, h2⟩]
  · intro q hok
    simp only [quantize_per_channel_group] at hok
    rw [if_neg (not_not_intro hgs), hind] at hok
    set E := if gs > d ∧ (scales.headD []).length = 1 then d else gs with hE
    have hEpos : 0 < E := by
      rw [hE]
      split
      · exact hd0
      · omega
    simp only [quantize_per_channel_group_checked] at hok
    rw [hind] at hok
    by_cases hdiv : d % E = 0
    · rw [if_neg (not_not_intro hdiv)] at hok
      by_cases hsl : scales.flatten.length
          = (chunkExact E input.flatten).length
          ∨ scales.flatten.length = 1
      · rw [if_neg (not_not_intro hsl)] at hok
        by_cases hzl : zero_points.flatten.length
            = (chunkExact E input.flatten).length
            ∨ zero_points.flatten.length = 1
        · rw [if_neg (not_not_intro hzl)] at hok
          simp only [Except.ok.injEq] at hok
          subst hok
          have hFlen := flatten_enum_map_length
            (fun i g => quantGroupG qmin qmax (bval scales.flatten i)
              (bval zero_points.flatten i) g)
            (fun i g => by simp [quantGroupG]) (chunkExact E input.flatten)
          rw [chunkExact_flatten E hEpos] at hFlen
          have hml := reshapeLike_map_length input
            (((chunkExact E input.flatten).enum.map
              (fun p => quantGroupG qmin qmax (bval scales.flatten p.1)
                (bval zero_points.flatten p.1) p.2)).flatten)
            (by rw [hFlen]; exact le_of_eq (List.length_flatten input).symm)
          have hqflat : (reshapeLike input
              (((chunkExact E input.flatten).enum.map
                (fun p => quantGroupG qmin qmax (bval scales.flatten p.1)
                  (bval zero_points.flatten p.1) p.2)).flatten)).flatten.length
              = input.flatten.length := by
            rw [List.length_flatten, hml, ← List.length_flatten]
          have hqhead : ((reshapeLike input
              (((chunkExact E input.flatten).enum.map
                (fun p => quantGroupG qmin qmax (bval scales.flatten p.1)
                  (bval zero_points.flatten p.1) p.2)).flatten)).headD
              []).length = d := by
            cases input with
            | nil =>
                exfalso
                simp only [List.headD_nil, List.length_nil] at hind
                omega
            | cons r rs =>
                show ((((chunkExact E (r :: rs).flatten).enum.map
                  (fun p => quantGroupG qmin qmax (bval scales.flatten p.1)
                    (bval zero_points.flatten p.1) p.2)).flatten).take
                  r.length).length = d
                simp only [List.length_take]
                simp only [List.headD_cons] at hind
                rw [hFlen]
                simp only [List.flatten_cons, List.length_append]
                omega
          have hcount : (chunkExact E (reshapeLike input
              (((chunkExact E input.flatten).enum.map
                (fun p => quantGroupG qmin qmax (bval scales.flatten p.1)
                  (bval zero_points.flatten p.1) p.2)).flatten)).flatten).length
              = (chunkExact E input.flatten).length :=
            chunkExact_length_congr E _ _ hqflat
          simp only [dequantize_per_channel_group]
          rw [if_neg (not_not_intro hgs), hqhead, ← hE]
          exact dequantize_checked_ok _ scales zero_points qmin qmax dt E
            (by rw [hqhead]; exact hdiv)
            (by rw [hcount]; exact hsl)
            (by rw [hcount]; exact hzl)
        · rw [if_pos hzl] at hok
          exact Except.noConfusion hok
      · rw [if_pos hsl] at hok
        exact Except.noConfusion hok
    · rw [if_pos hdiv] at hok
      exact Except.noConfusion hok
  · intro hnc hndiv
    constructor
    · simp only [quantize_per_channel_group, quantize_per_channel_group_checked]
      rw [if_neg (not_not_intro hgs), hind, if_neg hnc, if_pos hndiv]
    · simp only [dequantize_per_channel_group,
        dequantize_per_channel_group_checked]
      rw [if_neg (not_not_intro hgs), hwd, if_neg hnc, if_pos hndiv]

/-- Witness for C6 at a concrete narrowing instance: `input = [[1, 2]]`,
requested group size 4 with single-group scales. -/
theorem per_channel_group_narrowing_witness :
    quantize_per_channel_group [[1, 2]] [[1]] [[0]] (-8) 7 .int8 4
      = quantize_per_channel_group_checked [[1, 2]] [[1]] [[0]] (-8) 7 .int8 2
    ∧ dequantize_per_channel_group [[1, 2]] [[1]] [[0]] (-8) 7 .int8 4
        .float32
      = dequantize_per_channel_group_checked [[1, 2]] [[1]] [[0]] (-8) 7
        .int8 2 :=
  (per_channel_group_narrowing [[1, 2]] [[1, 2]] [[1]] [[0]] (-8) 7 .int8
      .float32 4 2 (by norm_num) rfl rfl (by norm_num)
      (by
        intro r hr
        simp only [List.mem_cons, List.not_mem_nil, or_false] at hr
        subst hr
        rfl)).1
    ⟨by norm_num, rfl⟩
